import Mathlib

/-!
# Verification of the fakir combinator library (src/fakir/__init__.py)

A shallow embedding of the fakir fake-data generator library.  Each
generator variant of the Python source becomes a constructor of the
`Fakir` inductive; `eval` embeds `Fakir._generate` (threading the
stateful `random.Random` source as a position into a deterministic raw
draw stream, and the `Dict[int, Any]` evaluation cache as an association
list keyed by object identity).  Python object identities (`id(self)`)
are made explicit as `Nat` labels on each node, and the allocator that
hands out fresh identities to objects created during evaluation
(`deepcopy` clones built by `BindFakir` continuations) is made explicit
as a counter threaded through the evaluation state.
-/

/-- Dynamically-typed Python values as relevant to the library: raw numeric
draws are represented as the `nat` of the underlying stream value, and the
`tuple` / `list` results of `tupled` / `listed` / bootstrap / permute keep
their Python type distinction. -/
inductive Val where
  | nat : Nat → Val
  | bool : Bool → Val
  | list : List Val → Val
  | tuple : List Val → Val
deriving Repr

/-- Errors raised while sampling (`generate` / `_generate` / `generate1`):
`emptyDomain` is the `IndexError` from choosing out of an empty collection,
`invalidArgument` the `ValueError` from `random.sample`, `notImplemented`
the base-class `generate1` fallback, and `fuel` marks exhaustion of the
step budget of the embedding (the Python code recurses unboundedly through
`bind`). -/
inductive Err where
  | emptyDomain
  | invalidArgument
  | notImplemented
  | fuel
deriving Repr, DecidableEq

/-- Errors raised at generator-construction time (`PermuteFakir.__init__`
raises `ValueError('sample larger than population or is negative')`, the
spec's `InvalidArgument`). -/
inductive ConsErr where
  | invalidArgument
deriving Repr, DecidableEq

mutual

/-- The generator tree, one constructor per Python class.  Each node carries
its object identity (`id(self)`) as an explicit `Nat` label.  `bind`'s
continuation receives the drawn value together with the current fresh-identity
counter and returns the generator it constructs plus the advanced counter
(Python allocates genuinely fresh object ids for anything the continuation
builds, e.g. the `iid()` clones made by `ifelse`). -/
inductive Fakir where
  | const (ident : Nat) (val : Val)
  | fn1 (ident : Nat) (fn : Nat → Val)
  | choice (ident : Nat) (choices : List Val)
  | bootstrap (ident : Nat) (choices : List Val) (count : Nat)
  | permute (ident : Nat) (choices : List Val) (choose : Nat)
  | lift (ident : Nat) (fn : List Val → Val) (args : FakirList)
  | bind (ident : Nat) (src : Fakir) (k : Val → Nat → Fakir × Nat)

/-- The argument spine of a `LiftFakir` (`self._args`). -/
inductive FakirList where
  | nil
  | cons (head : Fakir) (tail : FakirList)

end

/-- `id(self)` of a generator node. -/
def Fakir.ident : Fakir → Nat
  | .const i _ => i
  | .fn1 i _ => i
  | .choice i _ => i
  | .bootstrap i _ _ => i
  | .permute i _ _ => i
  | .lift i _ _ => i
  | .bind i _ _ => i

/-- The evaluation state threaded through `_generate`: the position in the
random source's raw draw stream, the per-call evaluation cache
(`Dict[int, Any]`, keyed by object identity), and the fresh-identity
allocator counter. -/
structure St where
  pos : Nat
  cache : List (Nat × Val)
  next : Nat
deriving Repr

/-- Python `dict` lookup (`self_id in cache` / `cache[self_id]`). -/
def dictLookup : List (Nat × Val) → Nat → Option Val
  | [], _ => none
  | (k, v) :: rest, i => if k = i then some v else dictLookup rest i

/-- Python `dict` store (`cache[self_id] = val`); newest binding shadows. -/
def dictInsert (cache : List (Nat × Val)) (k : Nat) (v : Val) : List (Nat × Val) :=
  (k, v) :: cache

/-- `random.Random.choices(choices, k=count)`: `count` draws with
replacement, each consuming one raw stream value. -/
def sampleWith (stream : Nat → Nat) : Nat → List Val → Nat → List Val × Nat
  | pos, _, 0 => ([], pos)
  | pos, cs, k + 1 =>
    let v := cs.getD (stream pos % cs.length) (Val.nat 0)
    let p := sampleWith stream (pos + 1) cs k
    (v :: p.1, p.2)

/-- `random.Random.sample(choices, choose)`: `choose` draws without
replacement, removing each drawn element from the pool. -/
def sampleWithout (stream : Nat → Nat) : Nat → List Val → Nat → List Val × Nat
  | pos, _, 0 => ([], pos)
  | pos, cs, k + 1 =>
    let idx := stream pos % cs.length
    let v := cs.getD idx (Val.nat 0)
    let p := sampleWithout stream (pos + 1) (cs.eraseIdx idx) k
    (v :: p.1, p.2)

/-- `generate1`, the cache-free single draw of the variants that define it
(`Fn1Fakir`, `ChoiceFakir`, `BootstrapFakir`, `PermuteFakir`); every other
variant inherits the base-class `NotImplementedError`.  Returns the value
and the advanced stream position. -/
def generate1 (stream : Nat → Nat) (g : Fakir) (pos : Nat) : Except Err (Val × Nat) :=
  match g with
  | .fn1 _ f => Except.ok (f (stream pos), pos + 1)
  | .choice _ cs =>
    if cs.length = 0 then Except.error Err.emptyDomain
    else Except.ok (cs.getD (stream pos % cs.length) (Val.nat 0), pos + 1)
  | .bootstrap _ cs count =>
    if cs.length = 0 ∧ count ≠ 0 then Except.error Err.emptyDomain
    else
      let p := sampleWith stream pos cs count
      Except.ok (Val.list p.1, p.2)
  | .permute _ cs choose =>
    if choose ≤ cs.length then
      let p := sampleWithout stream pos cs choose
      Except.ok (Val.list p.1, p.2)
    else Except.error Err.invalidArgument
  | _ => Except.error Err.notImplemented

/-- Does this variant use the inherited default `Fakir._generate`
(the memoized call to `generate1`)?  `ConstFakir`, `LiftFakir` and
`BindFakir` override `_generate` instead. -/
def usesDefault : Fakir → Bool
  | .fn1 _ _ => true
  | .choice _ _ => true
  | .bootstrap _ _ _ => true
  | .permute _ _ _ => true
  | _ => false

/-- `LiftFakir._generate`'s argument traversal:
`(arg._generate(r, cache) for arg in self._args)`, left to right,
threading the random source and cache; parameterized by the evaluator
for a single generator. -/
def evalArgsAux (ev : Fakir → St → Except Err (Val × St)) :
    FakirList → St → Except Err (List Val × St)
  | .nil, st => Except.ok ([], st)
  | .cons a rest, st =>
    match ev a st with
    | Except.error e => Except.error e
    | Except.ok (v, st1) =>
      match evalArgsAux ev rest st1 with
      | Except.error e => Except.error e
      | Except.ok (vs, st2) => Except.ok (v :: vs, st2)

/-- One step of `_generate`, parameterized by the evaluator `ev` used for
recursive sub-evaluations.  `ConstFakir`, `LiftFakir` and `BindFakir`
override `_generate` (no cache check or store for their own identity);
every other variant runs the inherited default: return the cached value
if the identity is a cache key, otherwise call `generate1` and store the
result under the identity. -/
def evalStep (stream : Nat → Nat) (ev : Fakir → St → Except Err (Val × St))
    (g : Fakir) (st : St) : Except Err (Val × St) :=
  match g with
  | .const _ v => Except.ok (v, st)
  | .lift _ f args =>
    match evalArgsAux ev args st with
    | Except.error e => Except.error e
    | Except.ok (vs, st1) => Except.ok (f vs, st1)
  | .bind _ src k =>
    match ev src st with
    | Except.error e => Except.error e
    | Except.ok (v, st1) =>
      let p := k v st1.next
      ev p.1 { st1 with next := p.2 }
  | _ =>
    match dictLookup st.cache g.ident with
    | some v => Except.ok (v, st)
    | none =>
      match generate1 stream g st.pos with
      | Except.error e => Except.error e
      | Except.ok (v, pos1) =>
        Except.ok (v, { st with pos := pos1, cache := dictInsert st.cache g.ident v })

/-- `Fakir._generate`, with an explicit step budget (the Python code can
recurse unboundedly through `bind` continuations). -/
def eval (stream : Nat → Nat) : Nat → Fakir → St → Except Err (Val × St)
  | 0, _, _ => Except.error Err.fuel
  | fuel + 1, g, st => evalStep stream (eval stream fuel) g st

/-- `Fakir.generate`: the public entry point, delegating to `_generate`
with a fresh empty cache.  `pos` is the state of the seeded random source
and `next` the fresh-identity allocator counter at call time. -/
def generate (stream : Nat → Nat) (fuel : Nat) (g : Fakir) (pos next : Nat) :
    Except Err (Val × St) :=
  eval stream fuel g { pos := pos, cache := [], next := next }

mutual

/-- `copy.deepcopy` of a generator tree, with the fresh object identities
made explicit: every node's identity is renamed through `f` (Python's
`deepcopy` memo dictionary guarantees exactly this -- each distinct object
in the copied subtree is copied once, so identity-sharing inside the
subtree is preserved, while all copies receive new identities).  Function
attributes (`_fn`, continuations) are atomic under `deepcopy` and kept. -/
def relabel (f : Nat → Nat) : Fakir → Fakir
  | .const i v => .const (f i) v
  | .fn1 i fn => .fn1 (f i) fn
  | .choice i cs => .choice (f i) cs
  | .bootstrap i cs k => .bootstrap (f i) cs k
  | .permute i cs k => .permute (f i) cs k
  | .lift i fn args => .lift (f i) fn (relabelList f args)
  | .bind i src k => .bind (f i) (relabel f src) k

/-- `relabel` mapped over a `LiftFakir` argument spine. -/
def relabelList (f : Nat → Nat) : FakirList → FakirList
  | .nil => .nil
  | .cons a rest => .cons (relabel f a) (relabelList f rest)

end

mutual

/-- A strict upper bound on the identities occurring in the (statically
built) generator tree; `bind` continuations build their trees only at
evaluation time from the fresh counter, so they do not contribute. -/
def idBoundF : Fakir → Nat
  | .const i _ => i + 1
  | .fn1 i _ => i + 1
  | .choice i _ => i + 1
  | .bootstrap i _ _ => i + 1
  | .permute i _ _ => i + 1
  | .lift i _ args => Nat.max (i + 1) (idBoundList args)
  | .bind i src _ => Nat.max (i + 1) (idBoundF src)

/-- `idBoundF` over a `LiftFakir` argument spine. -/
def idBoundList : FakirList → Nat
  | .nil => 0
  | .cons a rest => Nat.max (idBoundF a) (idBoundList rest)

end

mutual

/-- Does identity `i` occur on a node of the (statically built) tree? -/
def idMem : Fakir → Nat → Bool
  | .const j _, i => j == i
  | .fn1 j _, i => j == i
  | .choice j _, i => j == i
  | .bootstrap j _ _, i => j == i
  | .permute j _ _, i => j == i
  | .lift j _ args, i => j == i || idMemList args i
  | .bind j src _, i => j == i || idMem src i

/-- `idMem` over a `LiftFakir` argument spine. -/
def idMemList : FakirList → Nat → Bool
  | .nil, _ => false
  | .cons a rest, i => idMem a i || idMemList rest i

end

mutual

/-- Is the tree free of `BindFakir` nodes?  (A `bind` continuation is an
arbitrary function and may inspect the identity counter, so behavioural
lemmas about evaluation quantify over bind-free trees.) -/
def bindFree : Fakir → Bool
  | .const _ _ => true
  | .fn1 _ _ => true
  | .choice _ _ => true
  | .bootstrap _ _ _ => true
  | .permute _ _ _ => true
  | .lift _ _ args => bindFreeList args
  | .bind _ _ _ => false

/-- `bindFree` over a `LiftFakir` argument spine. -/
def bindFreeList : FakirList → Bool
  | .nil => true
  | .cons a rest => bindFree a && bindFreeList rest

end

/-- Python truthiness of a generated value, as used by `ifelse`'s
`if cond:` test. -/
def truthy : Val → Bool
  | .bool b => b
  | .nat n => n != 0
  | .list l => !l.isEmpty
  | .tuple l => !l.isEmpty

/-- `Fakir.iid` (`deepcopy(self)`): an identity-fresh structural copy.
`base` is the allocator state; the copy's identities are the originals
shifted by `base`, which are fresh whenever `base` is at least the
identity bound of every live generator. -/
def iid (base : Nat) (g : Fakir) : Fakir := relabel (fun i => base + i) g

/-- `fixed(val)`: `ConstFakir(val)`. -/
def fixed (i : Nat) (v : Val) : Fakir := Fakir.const i v

/-- `normal(mu, sigma)` / `uniform(a, b)` / the other one-draw scalar
distribution constructors: `Fn1Fakir` wrapping one random-source
operation, abstracted as a pure function of the raw draw. -/
def rngFn1 (i : Nat) (f : Nat → Val) : Fakir := Fakir.fn1 i f

/-- `choice(choices)`: `ChoiceFakir(choices)` -- no construction-time
validation. -/
def choiceGen (i : Nat) (cs : List Val) : Fakir := Fakir.choice i cs

/-- `bootstrap(choices, count)`: `BootstrapFakir(choices, count)` -- no
construction-time validation. -/
def bootstrapGen (i : Nat) (cs : List Val) (count : Nat) : Fakir :=
  Fakir.bootstrap i cs count

/-- `permute(choices, choose)`: `PermuteFakir.__init__`, which defaults
`choose` to `len(choices)` and otherwise raises
`ValueError('sample larger than population or is negative')` unless
`0 <= choose <= len(choices)`. -/
def permuteGen (i : Nat) (cs : List Val) (choose : Option Int) : Except ConsErr Fakir :=
  match choose with
  | none => Except.ok (Fakir.permute i cs cs.length)
  | some c =>
    if 0 ≤ c ∧ c ≤ (cs.length : Int) then Except.ok (Fakir.permute i cs c.toNat)
    else Except.error ConsErr.invalidArgument

/-- Conversion of a Lean list of generators to a `LiftFakir` spine. -/
def toFakirList : List Fakir → FakirList
  | [] => .nil
  | a :: rest => .cons a (toFakirList rest)

/-- `tupled(*args)`: `Fakir.liftList(tuple, *args)`. -/
def tupled (i : Nat) (args : FakirList) : Fakir := Fakir.lift i Val.tuple args

/-- `listed(*args)`: `Fakir.liftList(lambda xs: xs, *args)`. -/
def listed (i : Nat) (args : FakirList) : Fakir := Fakir.lift i Val.list args

/-- `repeat(fakir, count)`: `listed(*(fakir.iid() for _ in range(count)))`.
The `count` fresh `deepcopy` allocations are modelled by giving clone `j`
the identity block starting at `base + j * width`. -/
def repeatGen (i : Nat) (g : Fakir) (count : Nat) (base width : Nat) : Fakir :=
  listed i (toFakirList ((List.range count).map (fun j => iid (base + j * width) g)))

/-- `ifelse(cond, ifTrue, ifFalse)`: `cond.bind(ifElse)` where the
continuation returns `ifTrue.iid()` when the drawn condition is truthy and
`ifFalse.iid()` otherwise; each call allocates a genuinely fresh clone
from the current allocator state. -/
def ifelse (i : Nat) (cond ifTrue ifFalse : Fakir) : Fakir :=
  Fakir.bind i cond (fun v n =>
    if truthy v then (iid n ifTrue, n + idBoundF ifTrue)
    else (iid n ifFalse, n + idBoundF ifFalse))

/-- A run of `n` successive `generate` calls on one generator over one
random source, as in the determinism property: each call starts with a
fresh empty cache, and the random-source state and allocator advance
across calls. -/
def runSeq (stream : Nat → Nat) (fuel : Nat) (g : Fakir) :
    Nat → Nat → Nat → List (Except Err Val)
  | _, _, 0 => []
  | pos, next, n + 1 =>
    match generate stream fuel g pos next with
    | Except.error e => [Except.error e]
    | Except.ok (v, st1) => Except.ok v :: runSeq stream fuel g st1.pos st1.next n

/-- One run per element of `repeat`'s intended IID semantics: `n` successive
cache-free evaluations of `g`, each starting from a fresh empty cache and
consuming the random source where the previous one stopped.  Returns the
drawn values and the final stream position. -/
def freshRuns (stream : Nat → Nat) (fuel : Nat) (g : Fakir) :
    Nat → Nat → Except Err (List Val × Nat)
  | 0, pos => Except.ok ([], pos)
  | n + 1, pos =>
    match eval stream fuel g { pos := pos, cache := [], next := 0 } with
    | Except.error e => Except.error e
    | Except.ok (v, st1) =>
      match freshRuns stream fuel g n st1.pos with
      | Except.error e => Except.error e
      | Except.ok (vs, pos2) => Except.ok (v :: vs, pos2)

/-- Rename the keys of a cache fragment. -/
def mapKeys (f : Nat → Nat) (E : List (Nat × Val)) : List (Nat × Val) :=
  E.map (fun p => (f p.1, p.2))

theorem eval_succ (stream : Nat → Nat) (fuel : Nat) (g : Fakir) (st : St) :
    eval stream (fuel + 1) g st = evalStep stream (eval stream fuel) g st := rfl

theorem dictLookup_append (E C : List (Nat × Val)) (i : Nat) :
    dictLookup (E ++ C) i =
      match dictLookup E i with
      | some v => some v
      | none => dictLookup C i := by
  induction E with
  | nil => simp [dictLookup]
  | cons p rest ih =>
    obtain ⟨k, v⟩ := p
    by_cases h : k = i <;> simp [dictLookup, h, ih]

theorem dictLookup_mapKeys (f : Nat → Nat) (hf : ∀ a b : Nat, f a = f b → a = b)
    (E : List (Nat × Val)) (i : Nat) :
    dictLookup (mapKeys f E) (f i) = dictLookup E i := by
  induction E with
  | nil => simp [dictLookup, mapKeys]
  | cons p rest ih =>
    obtain ⟨k, v⟩ := p
    by_cases h : k = i
    · subst h; simp [dictLookup, mapKeys]
    · have hne : ¬ f k = f i := fun hc => h (hf _ _ hc)
      simp [dictLookup, mapKeys, h, hne] at ih ⊢
      exact ih

theorem dictLookup_none_of_keys_lt (C : List (Nat × Val)) (n i : Nat)
    (hC : ∀ p ∈ C, p.1 < n) (hi : n ≤ i) : dictLookup C i = none := by
  induction C with
  | nil => rfl
  | cons p rest ih =>
    obtain ⟨k, v⟩ := p
    have hk := hC (k, v) (by simp)
    have : ¬ k = i := by omega
    simp [dictLookup, this]
    exact ih (fun q hq => hC q (by simp [hq]))

theorem mapKeys_append (f : Nat → Nat) (a b : List (Nat × Val)) :
    mapKeys f (a ++ b) = mapKeys f a ++ mapKeys f b := by
  simp [mapKeys]

theorem relabel_ident (f : Nat → Nat) (g : Fakir) :
    (relabel f g).ident = f g.ident := by
  cases g <;> rfl

theorem usesDefault_relabel (f : Nat → Nat) (g : Fakir) :
    usesDefault (relabel f g) = usesDefault g := by
  cases g <;> rfl

theorem generate1_relabel (stream f : Nat → Nat) (g : Fakir) (pos : Nat) :
    generate1 stream (relabel f g) pos = generate1 stream g pos := by
  cases g <;> rfl

mutual

theorem idMem_lt_idBoundF : ∀ g i, idMem g i = true → i < idBoundF g
  | .const j _, i, h => by simp [idMem] at h; simp [idBoundF, h]
  | .fn1 j _, i, h => by simp [idMem] at h; simp [idBoundF, h]
  | .choice j _, i, h => by simp [idMem] at h; simp [idBoundF, h]
  | .bootstrap j _ _, i, h => by simp [idMem] at h; simp [idBoundF, h]
  | .permute j _ _, i, h => by simp [idMem] at h; simp [idBoundF, h]
  | .lift j _ args, i, h => by
    simp [idMem] at h
    rcases h with h | h
    · simp [idBoundF, h]
    · have := idMemList_lt_idBoundList args i h
      simp [idBoundF]; omega
  | .bind j src _, i, h => by
    simp [idMem] at h
    rcases h with h | h
    · simp [idBoundF, h]
    · have := idMem_lt_idBoundF src i h
      simp [idBoundF]; omega

theorem idMemList_lt_idBoundList : ∀ l i, idMemList l i = true → i < idBoundList l
  | .cons a rest, i, h => by
    simp [idMemList] at h
    rcases h with h | h
    · have := idMem_lt_idBoundF a i h
      simp [idBoundList]; omega
    · have := idMemList_lt_idBoundList rest i h
      simp [idBoundList]; omega

end

theorem one_le_idBoundF (g : Fakir) : 1 ≤ idBoundF g := by
  cases g <;> simp [idBoundF]

theorem idMem_self (g : Fakir) : idMem g g.ident = true := by
  cases g <;> simp [idMem, Fakir.ident]

theorem evalStep_default (stream : Nat → Nat) (ev : Fakir → St → Except Err (Val × St))
    (g : Fakir) (st : St) (h : usesDefault g = true) :
    evalStep stream ev g st =
      match dictLookup st.cache g.ident with
      | some v => Except.ok (v, st)
      | none =>
        match generate1 stream g st.pos with
        | Except.error e => Except.error e
        | Except.ok (v, pos1) =>
          Except.ok (v, { st with pos := pos1, cache := dictInsert st.cache g.ident v }) := by
  cases g <;> first | rfl | simp [usesDefault] at h

/-- Relation between the outcome of evaluating a bind-free tree from cache
`C1` (allocator `n1`) and the outcome of evaluating its relabelling under
`f` from cache `C2` (allocator `n2`): either both fail identically, or both
succeed with the same value and the same stream consumption, the allocator
untouched, and the caches extended by the same fragment `E` (key-renamed by
`f` on the relabelled side) whose keys all satisfy `P`. -/
def relOut (f : Nat → Nat) (P : Nat → Bool) (C1 C2 : List (Nat × Val)) (n1 n2 : Nat) :
    Except Err (Val × St) → Except Err (Val × St) → Prop
  | Except.error e1, Except.error e2 => e1 = e2
  | Except.ok (v1, t1), Except.ok (v2, t2) =>
      v1 = v2 ∧ t2.pos = t1.pos ∧ t1.next = n1 ∧ t2.next = n2 ∧
      ∃ E, t1.cache = E ++ C1 ∧ t2.cache = mapKeys f E ++ C2 ∧ ∀ p ∈ E, P p.1 = true
  | _, _ => False

/-- `relOut` for the argument-spine traversal of `LiftFakir`. -/
def relOutArgs (f : Nat → Nat) (P : Nat → Bool) (C1 C2 : List (Nat × Val)) (n1 n2 : Nat) :
    Except Err (List Val × St) → Except Err (List Val × St) → Prop
  | Except.error e1, Except.error e2 => e1 = e2
  | Except.ok (v1, t1), Except.ok (v2, t2) =>
      v1 = v2 ∧ t2.pos = t1.pos ∧ t1.next = n1 ∧ t2.next = n2 ∧
      ∃ E, t1.cache = E ++ C1 ∧ t2.cache = mapKeys f E ++ C2 ∧ ∀ p ∈ E, P p.1 = true
  | _, _ => False

theorem evalStep_rel_default (stream f : Nat → Nat)
    (ev1 ev2 : Fakir → St → Except Err (Val × St)) (g : Fakir)
    (hud : usesDefault g = true) (pos : Nat) (C1 C2 : List (Nat × Val)) (n1 n2 : Nat)
    (hagree : dictLookup C2 (f g.ident) = dictLookup C1 g.ident) :
    relOut f (idMem g) C1 C2 n1 n2
      (evalStep stream ev1 g ⟨pos, C1, n1⟩)
      (evalStep stream ev2 (relabel f g) ⟨pos, C2, n2⟩) := by
  have hud2 : usesDefault (relabel f g) = true := by rw [usesDefault_relabel]; exact hud
  rw [evalStep_default stream ev1 g _ hud, evalStep_default stream ev2 (relabel f g) _ hud2,
      relabel_ident, generate1_relabel]
  show relOut f (idMem g) C1 C2 n1 n2
      (match dictLookup C1 g.ident with
       | some v => Except.ok (v, ⟨pos, C1, n1⟩)
       | none => _)
      (match dictLookup C2 (f g.ident) with
       | some v => Except.ok (v, ⟨pos, C2, n2⟩)
       | none => _)
  rw [hagree]
  cases hres : dictLookup C1 g.ident with
  | some v =>
    exact ⟨rfl, rfl, rfl, rfl, [], rfl, rfl, by simp⟩
  | none =>
    cases hgen : generate1 stream g pos with
    | error e => exact rfl
    | ok p =>
      obtain ⟨v, pos1⟩ := p
      refine ⟨rfl, rfl, rfl, rfl, [(g.ident, v)], rfl, rfl, ?_⟩
      intro q hq
      simp at hq
      rw [hq]
      exact idMem_self g


theorem evalArgs_rel (stream f : Nat → Nat) (hf : ∀ a b : Nat, f a = f b → a = b)
    (ev1 ev2 : Fakir → St → Except Err (Val × St))
    (hev : ∀ g pos C1 C2 n1 n2, bindFree g = true →
      (∀ i, idMem g i = true → dictLookup C2 (f i) = dictLookup C1 i) →
      relOut f (idMem g) C1 C2 n1 n2 (ev1 g ⟨pos, C1, n1⟩) (ev2 (relabel f g) ⟨pos, C2, n2⟩)) :
    ∀ args pos C1 C2 n1 n2, bindFreeList args = true →
      (∀ i, idMemList args i = true → dictLookup C2 (f i) = dictLookup C1 i) →
      relOutArgs f (idMemList args) C1 C2 n1 n2
        (evalArgsAux ev1 args ⟨pos, C1, n1⟩)
        (evalArgsAux ev2 (relabelList f args) ⟨pos, C2, n2⟩)
  | .nil, pos, C1, C2, n1, n2, _, _ =>
    ⟨rfl, rfl, rfl, rfl, [], rfl, rfl, by simp⟩
  | .cons a rest, pos, C1, C2, n1, n2, hbf, hagree => by
    have hba : bindFree a = true := by
      simp [bindFreeList] at hbf; exact hbf.1
    have hbr : bindFreeList rest = true := by
      simp [bindFreeList] at hbf; exact hbf.2
    have hagA : ∀ i, idMem a i = true → dictLookup C2 (f i) = dictLookup C1 i :=
      fun i hi => hagree i (by simp [idMemList, hi])
    have h1 := hev a pos C1 C2 n1 n2 hba hagA
    show relOutArgs f (idMemList (.cons a rest)) C1 C2 n1 n2
      (match ev1 a ⟨pos, C1, n1⟩ with
       | Except.error e => Except.error e
       | Except.ok (v, st1) =>
         match evalArgsAux ev1 rest st1 with
         | Except.error e => Except.error e
         | Except.ok (vs, st2) => Except.ok (v :: vs, st2))
      (match ev2 (relabel f a) ⟨pos, C2, n2⟩ with
       | Except.error e => Except.error e
       | Except.ok (v, st1) =>
         match evalArgsAux ev2 (relabelList f rest) st1 with
         | Except.error e => Except.error e
         | Except.ok (vs, st2) => Except.ok (v :: vs, st2))
    cases e1 : ev1 a ⟨pos, C1, n1⟩ with
    | error err1 =>
      cases e2 : ev2 (relabel f a) ⟨pos, C2, n2⟩ with
      | error err2 =>
        rw [e1, e2] at h1
        exact h1
      | ok res2 =>
        rw [e1, e2] at h1
        obtain ⟨v2, t2⟩ := res2
        exact h1.elim
    | ok res1 =>
      obtain ⟨v1, t1⟩ := res1
      cases e2 : ev2 (relabel f a) ⟨pos, C2, n2⟩ with
      | error err2 =>
        rw [e1, e2] at h1
        exact h1.elim
      | ok res2 =>
        obtain ⟨v2, t2⟩ := res2
        rw [e1, e2] at h1
        obtain ⟨p1, c1, m1⟩ := t1
        obtain ⟨p2, c2, m2⟩ := t2
        obtain ⟨hv, hpos, hn1, hn2, E, hc1, hc2, hE⟩ := h1
        simp only at hv hpos hn1 hn2 hc1 hc2
        subst hv
        subst hpos
        subst hn1
        subst hn2
        subst hc1
        subst hc2
        have hagR : ∀ i, idMemList rest i = true →
            dictLookup (mapKeys f E ++ C2) (f i) = dictLookup (E ++ C1) i := by
          intro i hi
          rw [dictLookup_append, dictLookup_append, dictLookup_mapKeys f hf]
          cases hEi : dictLookup E i with
          | some w => rfl
          | none => exact hagree i (by simp [idMemList, hi])
        have h2 := evalArgs_rel stream f hf ev1 ev2 hev rest p2 (E ++ C1)
          (mapKeys f E ++ C2) m1 m2 hbr hagR
        show relOutArgs f (idMemList (.cons a rest)) C1 C2 m1 m2
          (match evalArgsAux ev1 rest ⟨p2, E ++ C1, m1⟩ with
           | Except.error e => Except.error e
           | Except.ok (vs, st2) => Except.ok (v1 :: vs, st2))
          (match evalArgsAux ev2 (relabelList f rest) ⟨p2, mapKeys f E ++ C2, m2⟩ with
           | Except.error e => Except.error e
           | Except.ok (vs, st2) => Except.ok (v1 :: vs, st2))
        cases e3 : evalArgsAux ev1 rest ⟨p2, E ++ C1, m1⟩ with
        | error err3 =>
          cases e4 : evalArgsAux ev2 (relabelList f rest) ⟨p2, mapKeys f E ++ C2, m2⟩ with
          | error err4 =>
            rw [e3, e4] at h2
            exact h2
          | ok res4 =>
            rw [e3, e4] at h2
            obtain ⟨vs4, u4⟩ := res4
            exact h2.elim
        | ok res3 =>
          obtain ⟨vs3, u3⟩ := res3
          cases e4 : evalArgsAux ev2 (relabelList f rest) ⟨p2, mapKeys f E ++ C2, m2⟩ with
          | error err4 =>
            rw [e3, e4] at h2
            exact h2.elim
          | ok res4 =>
            obtain ⟨vs4, u4⟩ := res4
            rw [e3, e4] at h2
            obtain ⟨hvs, hpos2, hn1b, hn2b, E2, hc1b, hc2b, hE2⟩ := h2
            refine ⟨by rw [hvs], hpos2, hn1b, hn2b, E2 ++ E, ?_, ?_, ?_⟩
            · rw [hc1b, List.append_assoc]
            · rw [hc2b, mapKeys_append, List.append_assoc]
            · intro q hq
              rcases List.mem_append.mp hq with hq | hq
              · have hmem := hE2 q hq
                simp [idMemList] at hmem ⊢
                exact Or.inr hmem
              · have hmem := hE q hq
                simp [idMemList] at hmem ⊢
                exact Or.inl hmem

/-- Core relabelling lemma: for a bind-free generator `g` and an injective
identity renaming `f`, evaluating `g` from cache `C1` and evaluating the
renamed copy `relabel f g` from cache `C2` agree (same value, same random
source consumption, allocator untouched, caches extended by the same
fragment up to key renaming), provided the two caches agree pointwise on
the identities of `g` (under the renaming on the copy's side). -/
theorem eval_relabel_rel (stream f : Nat → Nat) (hf : ∀ a b : Nat, f a = f b → a = b) :
    ∀ fuel g pos C1 C2 n1 n2, bindFree g = true →
      (∀ i, idMem g i = true → dictLookup C2 (f i) = dictLookup C1 i) →
      relOut f (idMem g) C1 C2 n1 n2
        (eval stream fuel g ⟨pos, C1, n1⟩)
        (eval stream fuel (relabel f g) ⟨pos, C2, n2⟩) := by
  intro fuel
  induction fuel with
  | zero =>
    intro g pos C1 C2 n1 n2 _ _
    exact rfl
  | succ fuel ih =>
    intro g pos C1 C2 n1 n2 hbf hagree
    rw [eval_succ, eval_succ]
    cases g with
    | const j v =>
      exact ⟨rfl, rfl, rfl, rfl, [], rfl, rfl, by simp⟩
    | fn1 j fn =>
      exact evalStep_rel_default stream f _ _ (.fn1 j fn) rfl pos C1 C2 n1 n2
        (hagree _ (idMem_self (.fn1 j fn)))
    | choice j cs =>
      exact evalStep_rel_default stream f _ _ (.choice j cs) rfl pos C1 C2 n1 n2
        (hagree _ (idMem_self (.choice j cs)))
    | bootstrap j cs k =>
      exact evalStep_rel_default stream f _ _ (.bootstrap j cs k) rfl pos C1 C2 n1 n2
        (hagree _ (idMem_self (.bootstrap j cs k)))
    | permute j cs k =>
      exact evalStep_rel_default stream f _ _ (.permute j cs k) rfl pos C1 C2 n1 n2
        (hagree _ (idMem_self (.permute j cs k)))
    | bind j src k =>
      simp [bindFree] at hbf
    | lift j fn args =>
      have hbfl : bindFreeList args = true := by simpa [bindFree] using hbf
      have hagL : ∀ i, idMemList args i = true → dictLookup C2 (f i) = dictLookup C1 i :=
        fun i hi => hagree i (by simp [idMem, hi])
      have h := evalArgs_rel stream f hf (eval stream fuel) (eval stream fuel)
        (fun g' pos' C1' C2' n1' n2' hb ha => ih g' pos' C1' C2' n1' n2' hb ha)
        args pos C1 C2 n1 n2 hbfl hagL
      show relOut f (idMem (.lift j fn args)) C1 C2 n1 n2
        (match evalArgsAux (eval stream fuel) args ⟨pos, C1, n1⟩ with
         | Except.error e => Except.error e
         | Except.ok (vs, st1) => Except.ok (fn vs, st1))
        (match evalArgsAux (eval stream fuel) (relabelList f args) ⟨pos, C2, n2⟩ with
         | Except.error e => Except.error e
         | Except.ok (vs, st1) => Except.ok (fn vs, st1))
      cases e1 : evalArgsAux (eval stream fuel) args ⟨pos, C1, n1⟩ with
      | error err1 =>
        cases e2 : evalArgsAux (eval stream fuel) (relabelList f args) ⟨pos, C2, n2⟩ with
        | error err2 =>
          rw [e1, e2] at h
          exact h
        | ok res2 =>
          rw [e1, e2] at h
          obtain ⟨vs2, t2⟩ := res2
          exact h.elim
      | ok res1 =>
        obtain ⟨vs1, t1⟩ := res1
        cases e2 : evalArgsAux (eval stream fuel) (relabelList f args) ⟨pos, C2, n2⟩ with
        | error err2 =>
          rw [e1, e2] at h
          exact h.elim
        | ok res2 =>
          obtain ⟨vs2, t2⟩ := res2
          rw [e1, e2] at h
          obtain ⟨hv, hpos, hn1, hn2, E, hc1, hc2, hE⟩ := h
          refine ⟨by rw [hv], hpos, hn1, hn2, E, hc1, hc2, ?_⟩
          intro q hq
          have hmem := hE q hq
          simp [idMem]
          exact Or.inr hmem

mutual

theorem relabel_id : ∀ g, relabel (fun i => i) g = g
  | .const _ _ => rfl
  | .fn1 _ _ => rfl
  | .choice _ _ => rfl
  | .bootstrap _ _ _ => rfl
  | .permute _ _ _ => rfl
  | .lift i fn args => by rw [relabel, relabelList_id args]
  | .bind i src k => by rw [relabel, relabel_id src]

theorem relabelList_id : ∀ l, relabelList (fun i => i) l = l
  | .nil => rfl
  | .cons a rest => by rw [relabelList, relabel_id a, relabelList_id rest]

end

/-- Shape of a successful bind-free evaluation: the allocator is untouched
and the cache is extended (at the front) by entries whose keys are all
identities of the evaluated tree. -/
theorem eval_ok_shape (stream : Nat → Nat) (fuel : Nat) (g : Fakir)
    (pos n : Nat) (C : List (Nat × Val)) (v : Val) (st' : St)
    (hbf : bindFree g = true)
    (h : eval stream fuel g ⟨pos, C, n⟩ = Except.ok (v, st')) :
    st'.next = n ∧ ∃ E, st'.cache = E ++ C ∧ ∀ p ∈ E, idMem g p.1 = true := by
  have hrel := eval_relabel_rel stream (fun i => i) (fun a b hab => hab) fuel g pos C C n n
    hbf (fun i _ => rfl)
  rw [relabel_id, h] at hrel
  obtain ⟨_, _, hn, _, E, hc, _, hE⟩ := hrel
  exact ⟨hn, E, hc, hE⟩

theorem freshRuns_length (stream : Nat → Nat) (fuel : Nat) (g : Fakir) :
    ∀ n pos vs pos2, freshRuns stream fuel g n pos = Except.ok (vs, pos2) →
      vs.length = n := by
  intro n
  induction n with
  | zero =>
    intro pos vs pos2 h
    simp [freshRuns] at h
    rw [h.1]
    rfl
  | succ n ih =>
    intro pos vs pos2 h
    rw [freshRuns] at h
    split at h
    · exact absurd h (by simp)
    · rename_i v st1 heq
      split at h
      · exact absurd h (by simp)
      · rename_i vs1 pos3 heq2
        simp only [Except.ok.injEq, Prod.mk.injEq] at h
        obtain ⟨hvs, _⟩ := h
        rw [← hvs]
        simp [ih st1.pos vs1 pos3 heq2]

/-!
## Claim theorems
-/

/-- C1 (counterexample): the claim that every variant (primitive, lifted,
bound, conditional) goes through the default cache policy — and that
consequently every instance reachable from the root is evaluated at most
once with all shared references observing the identical value — is false:
`LiftFakir`, `BindFakir` and `ConstFakir` override `_generate` without
consulting or populating the cache under their own identity.  Concretely,
one `generate()` call on `tupled(de, de)`, where `de = ifelse(fixed(True),
g, h)` is a single shared conditional instance (identity 3), evaluates `de`
twice and returns a tuple with two different values (each branch evaluation
re-clones and re-draws); moreover neither the conditional's identity 3 nor
the tuple's identity 4 is a key of the final cache. -/
theorem c1_uniform_cache_policy_counterexample :
    generate (fun t => t) 6
      (tupled 4 (.cons
        (ifelse 3 (Fakir.const 0 (Val.bool true)) (Fakir.fn1 1 Val.nat) (Fakir.fn1 2 Val.nat))
        (.cons
          (ifelse 3 (Fakir.const 0 (Val.bool true)) (Fakir.fn1 1 Val.nat) (Fakir.fn1 2 Val.nat))
          .nil))) 0 100
      = Except.ok (Val.tuple [Val.nat 0, Val.nat 1],
          ⟨2, [(103, Val.nat 1), (101, Val.nat 0)], 104⟩) ∧
    Val.nat 0 ≠ Val.nat 1 ∧
    dictLookup [(103, Val.nat 1), (101, Val.nat 0)] 3 = none ∧
    dictLookup [(103, Val.nat 1), (101, Val.nat 0)] 4 = none := by
  refine ⟨rfl, by simp, rfl, rfl⟩

/-- C1 (amended): the default cache policy governs exactly the variants
that define `generate1` and inherit `Fakir._generate` (`Fn1Fakir`,
`ChoiceFakir`, `BootstrapFakir`, `PermuteFakir`): after any successful
evaluation of such a generator, its value is stored in the cache under its
identity, any further evaluation of the same instance in the same call
returns the identical cached value without touching the random source or
the state, and if the identity was already cached the evaluation returned
that cached value with the state unchanged. -/
theorem c1_amended_default_cache_policy (stream : Nat → Nat) (g : Fakir)
    (fuel1 fuel2 : Nat) (st st' : St) (v : Val)
    (hud : usesDefault g = true)
    (h : eval stream (fuel1 + 1) g st = Except.ok (v, st')) :
    dictLookup st'.cache g.ident = some v ∧
    eval stream (fuel2 + 1) g st' = Except.ok (v, st') ∧
    (∀ w, dictLookup st.cache g.ident = some w → v = w ∧ st' = st) := by
  rw [eval_succ, evalStep_default stream (eval stream fuel1) g st hud] at h
  split at h
  · rename_i w hl
    simp only [Except.ok.injEq, Prod.mk.injEq] at h
    obtain ⟨hv, hst⟩ := h
    refine ⟨?_, ?_, ?_⟩
    · rw [← hst, ← hv]
      exact hl
    · rw [← hst, ← hv, eval_succ, evalStep_default stream (eval stream fuel2) g st hud, hl]
    · intro w' hw'
      rw [hl] at hw'
      injection hw' with hww
      exact ⟨hv.symm.trans hww, hst.symm⟩
  · rename_i hl
    split at h
    · exact absurd h (by simp)
    · rename_i w pos1 hg
      simp only [Except.ok.injEq, Prod.mk.injEq] at h
      obtain ⟨hv, hst⟩ := h
      have hlk : dictLookup st'.cache g.ident = some v := by
        rw [← hst]
        simp [dictInsert, dictLookup, hv]
      refine ⟨hlk, ?_, ?_⟩
      · rw [eval_succ, evalStep_default stream (eval stream fuel2) g st' hud, hlk]
      · intro w' hw'
        rw [hl] at hw'
        exact absurd hw' (by simp)

/-- Witness for the amended C1 theorem at a concrete primitive draw. -/
theorem c1_amended_default_cache_policy_witness :
    dictLookup ((⟨1, [(5, Val.nat 0)], 0⟩ : St)).cache (Fakir.fn1 5 Val.nat).ident
      = some (Val.nat 0) ∧
    eval (fun t => t) 1 (Fakir.fn1 5 Val.nat) ⟨1, [(5, Val.nat 0)], 0⟩
      = Except.ok (Val.nat 0, ⟨1, [(5, Val.nat 0)], 0⟩) ∧
    (∀ w, dictLookup ((⟨0, [], 0⟩ : St)).cache (Fakir.fn1 5 Val.nat).ident = some w →
      Val.nat 0 = w ∧ (⟨1, [(5, Val.nat 0)], 0⟩ : St) = ⟨0, [], 0⟩) :=
  c1_amended_default_cache_policy (fun t => t) (Fakir.fn1 5 Val.nat) 0 0
    ⟨0, [], 0⟩ ⟨1, [(5, Val.nat 0)], 0⟩ (Val.nat 0) rfl rfl

/-- C2: for every seed (stream and position) and every primitive one-draw
generator instance `g` (identity `i`, e.g. `normal(0,1)`), one `generate()`
call on `tupled(g, g)` draws once, caches the value under `i`, and returns
a 2-tuple whose two components are that identical value — the second
occurrence hits the cache entry written by the first. -/
theorem c2_tupled_sharing_equal_components (i j : Nat) (f : Nat → Val)
    (stream : Nat → Nat) (fuel pos next : Nat) :
    generate stream (fuel + 2)
      (tupled j (.cons (Fakir.fn1 i f) (.cons (Fakir.fn1 i f) .nil))) pos next
      = Except.ok (Val.tuple [f (stream pos), f (stream pos)],
          ⟨pos + 1, [(i, f (stream pos))], next⟩) := by
  have e2 : ∀ g st, eval stream (fuel + 2) g st
      = evalStep stream (evalStep stream (eval stream fuel)) g st := fun _ _ => rfl
  rw [generate, e2]
  simp [evalStep, evalArgsAux, tupled, generate1, dictLookup, dictInsert, Fakir.ident]

/-- C6: `PermuteFakir.__init__` checks `0 <= choose <= len(choices)`:
out-of-range counts fail at construction time with the `InvalidArgument`
error (no generator is produced), in-range counts construct successfully,
and the constructed generator never raises at sampling time — the bound
error is never deferred to `generate()`. -/
theorem c6_permute_bounds_checked_at_construction (i : Nat) (cs : List Val) (c : Int) :
    ((c < 0 ∨ (cs.length : Int) < c) →
      permuteGen i cs (some c) = Except.error ConsErr.invalidArgument) ∧
    (0 ≤ c → c ≤ (cs.length : Int) →
      ∃ g, permuteGen i cs (some c) = Except.ok g ∧
        ∀ stream fuel st, ∃ v st', eval stream (fuel + 1) g st = Except.ok (v, st')) := by
  constructor
  · intro hbad
    simp only [permuteGen]
    rw [if_neg (by omega)]
  · intro h0 hle
    simp only [permuteGen]
    rw [if_pos ⟨h0, hle⟩]
    refine ⟨Fakir.permute i cs c.toNat, rfl, ?_⟩
    intro stream fuel st
    rw [eval_succ, evalStep_default stream (eval stream fuel) (Fakir.permute i cs c.toNat) st rfl]
    cases hl : dictLookup st.cache (Fakir.permute i cs c.toNat).ident with
    | some v => exact ⟨v, st, rfl⟩
    | none =>
      have hcle : c.toNat ≤ cs.length := by omega
      simp [generate1, hcle]

/-- Witness for C6 at `permute([1,2,3], choose=5)` (fails construction) and
`permute([1,2,3], choose=2)` (constructs; sampling succeeds). -/
theorem c6_permute_bounds_witness :
    permuteGen 0 [Val.nat 1, Val.nat 2, Val.nat 3] (some 5)
      = Except.error ConsErr.invalidArgument ∧
    ∃ g, permuteGen 0 [Val.nat 1, Val.nat 2, Val.nat 3] (some 2) = Except.ok g ∧
      ∀ stream fuel st, ∃ v st', eval stream (fuel + 1) g st = Except.ok (v, st') :=
  ⟨(c6_permute_bounds_checked_at_construction 0 [Val.nat 1, Val.nat 2, Val.nat 3] 5).1
      (Or.inr (by decide)),
   (c6_permute_bounds_checked_at_construction 0 [Val.nat 1, Val.nat 2, Val.nat 3] 2).2
      (by decide) (by decide)⟩

/-- C7 (counterexample): the claim that for a choice, bootstrap, or
permutation generator with an empty source collection construction always
succeeds (failure deferred to sampling) is false: `permute([], choose=2)`
already fails at construction with the `InvalidArgument` bound error, so
no generator object is produced. -/
theorem c7_empty_domain_counterexample :
    permuteGen 0 [] (some 2) = Except.error ConsErr.invalidArgument ∧
    (permuteGen 0 [] (some 2)).toOption = none := ⟨rfl, rfl⟩

/-- C7 (amended): emptiness itself is never validated at construction:
`choice([])` and `bootstrap([], k)` always construct, and `permute([])`
(count omitted, defaulting to the full length 0) constructs too.  The
`EmptyDomain` failure, where it occurs at all, occurs at sampling time:
every `generate()` call on `choice([])` raises it, and every `generate()`
call on `bootstrap([], k)` with `k ≠ 0` raises it; but `bootstrap([], 0)`
and `permute([])` sample to the empty list without error, and an empty
permutation with a positive requested count already fails construction
(see the counterexample). -/
theorem c7_amended_empty_domain_at_sampling (i k : Nat) (stream : Nat → Nat)
    (fuel pos next : Nat) :
    generate stream (fuel + 1) (Fakir.choice i []) pos next = Except.error Err.emptyDomain ∧
    (k ≠ 0 → generate stream (fuel + 1) (Fakir.bootstrap i [] k) pos next
      = Except.error Err.emptyDomain) ∧
    generate stream (fuel + 1) (Fakir.bootstrap i [] 0) pos next
      = Except.ok (Val.list [], ⟨pos, [(i, Val.list [])], next⟩) ∧
    permuteGen i [] none = Except.ok (Fakir.permute i [] 0) ∧
    generate stream (fuel + 1) (Fakir.permute i [] 0) pos next
      = Except.ok (Val.list [], ⟨pos, [(i, Val.list [])], next⟩) := by
  refine ⟨?_, ?_, ?_, rfl, ?_⟩
  · rw [generate, eval_succ]
    simp [evalStep, generate1, dictLookup, Fakir.ident]
  · intro hk
    rw [generate, eval_succ]
    simp [evalStep, generate1, dictLookup, Fakir.ident, hk]
  · rw [generate, eval_succ]
    simp [evalStep, generate1, sampleWith, dictLookup, dictInsert, Fakir.ident]
  · rw [generate, eval_succ]
    simp [evalStep, generate1, sampleWithout, dictLookup, dictInsert, Fakir.ident]

/-- Witness for the amended C7 theorem at concrete arguments. -/
theorem c7_amended_empty_domain_witness :
    generate (fun t => t) 1 (Fakir.choice 4 []) 0 9 = Except.error Err.emptyDomain ∧
    generate (fun t => t) 1 (Fakir.bootstrap 4 [] 2) 0 9 = Except.error Err.emptyDomain ∧
    generate (fun t => t) 1 (Fakir.bootstrap 4 [] 0) 0 9
      = Except.ok (Val.list [], ⟨0, [(4, Val.list [])], 9⟩) ∧
    permuteGen 4 [] none = Except.ok (Fakir.permute 4 [] 0) ∧
    generate (fun t => t) 1 (Fakir.permute 4 [] 0) 0 9
      = Except.ok (Val.list [], ⟨0, [(4, Val.list [])], 9⟩) := by
  have h := c7_amended_empty_domain_at_sampling 4 2 (fun t => t) 0 0 9
  exact ⟨h.1, h.2.1 (by decide), h.2.2.1, h.2.2.2.1, h.2.2.2.2⟩

/-- C8: sampling is a deterministic function of the generator tree and the
random-source state: two runs of the same sequence of `generate()` calls,
over random sources that agree draw-for-draw and equal generator trees,
produce identical sequences of sampled values. -/
theorem c8_determinism_of_runs (s1 s2 : Nat → Nat) (g1 g2 : Fakir)
    (fuel pos next n : Nat) (hs : ∀ t, s1 t = s2 t) (hg : g1 = g2) :
    runSeq s1 fuel g1 pos next n = runSeq s2 fuel g2 pos next n := by
  have hfun : s1 = s2 := funext hs
  rw [hfun, hg]

/-- Witness for C8: two syntactically different but draw-for-draw equal
streams produce the same run of three samples. -/
theorem c8_determinism_witness :
    runSeq (fun t => t) 2 (Fakir.fn1 0 Val.nat) 0 0 3
      = runSeq (fun t => 0 + t) 2 (Fakir.fn1 0 Val.nat) 0 0 3 :=
  c8_determinism_of_runs (fun t => t) (fun t => 0 + t) (Fakir.fn1 0 Val.nat)
    (Fakir.fn1 0 Val.nat) 2 0 0 3 (fun t => (Nat.zero_add t).symm) rfl

/-- C9: `iid()` is a structural deep copy that preserves internal sharing:
cloning `h = tupled(g, g)` (one primitive instance `g` referenced through
both tuple slots) yields a tuple generator holding one fresh instance
referenced through both slots — so one `generate()` call on the clone still
draws once and returns equal linked components — while no identity of the
clone coincides with an identity of `h`. -/
theorem c9_iid_preserves_internal_sharing (i j base : Nat) (f : Nat → Val)
    (stream : Nat → Nat) (fuel pos next : Nat) (hi : i < base) (hj : j < base) :
    iid base (tupled j (.cons (Fakir.fn1 i f) (.cons (Fakir.fn1 i f) .nil)))
      = tupled (base + j)
          (.cons (Fakir.fn1 (base + i) f) (.cons (Fakir.fn1 (base + i) f) .nil)) ∧
    generate stream (fuel + 2)
      (iid base (tupled j (.cons (Fakir.fn1 i f) (.cons (Fakir.fn1 i f) .nil)))) pos next
      = Except.ok (Val.tuple [f (stream pos), f (stream pos)],
          ⟨pos + 1, [(base + i, f (stream pos))], next⟩) ∧
    (base + i ≠ i ∧ base + i ≠ j ∧ base + j ≠ i ∧ base + j ≠ j) := by
  refine ⟨rfl, ?_, by omega, by omega, by omega, by omega⟩
  have e2 : ∀ g st, eval stream (fuel + 2) g st
      = evalStep stream (evalStep stream (eval stream fuel)) g st := fun _ _ => rfl
  rw [generate, e2]
  simp [iid, relabel, relabelList, tupled, evalStep, evalArgsAux, generate1,
    dictLookup, dictInsert, Fakir.ident]

/-- Witness for C9 at concrete identities. -/
theorem c9_iid_preserves_internal_sharing_witness :
    iid 2 (tupled 1 (.cons (Fakir.fn1 0 Val.nat) (.cons (Fakir.fn1 0 Val.nat) .nil)))
      = tupled (2 + 1)
          (.cons (Fakir.fn1 (2 + 0) Val.nat) (.cons (Fakir.fn1 (2 + 0) Val.nat) .nil)) ∧
    generate (fun t => t) (0 + 2)
      (iid 2 (tupled 1 (.cons (Fakir.fn1 0 Val.nat) (.cons (Fakir.fn1 0 Val.nat) .nil)))) 0 10
      = Except.ok (Val.tuple [Val.nat 0, Val.nat 0], ⟨0 + 1, [(2 + 0, Val.nat 0)], 10⟩) ∧
    (2 + 0 ≠ 0 ∧ 2 + 0 ≠ 1 ∧ 2 + 1 ≠ 0 ∧ 2 + 1 ≠ 1) :=
  c9_iid_preserves_internal_sharing 0 1 2 Val.nat (fun t => t) 0 0 10
    (by decide) (by decide)

/-- C10: `ifelse` evaluates a fresh `iid()` clone of the chosen branch on
every draw, never the branch instance itself.  With a truthy condition and
branch `g = Fn1Fakir(i, f)`: (a) evaluating the conditional alone leaves
the final cache keyed only by the clone's fresh identity `next + i` — the
branch's own identity `i` never enters the cache through `ifelse`; and
(b) when the same branch instance also occurs elsewhere in the composite
(`tupled(g, ifelse(fixed(True), g, h))`), the value returned by `ifelse`
is a separate draw at the next random-source position, not the cached
value of the other occurrence. -/
theorem c10_ifelse_evaluates_fresh_clone (i i2 jc jb jt : Nat) (f f2 : Nat → Val)
    (stream : Nat → Nat) (fuel pos next : Nat) (hnext : 0 < next) :
    (generate stream (fuel + 2)
      (ifelse jb (Fakir.const jc (Val.bool true)) (Fakir.fn1 i f) (Fakir.fn1 i2 f2)) pos next
      = Except.ok (f (stream pos), ⟨pos + 1, [(next + i, f (stream pos))], next + i + 1⟩) ∧
     dictLookup [(next + i, f (stream pos))] i = none) ∧
    generate stream (fuel + 3)
      (tupled jt (.cons (Fakir.fn1 i f)
        (.cons (ifelse jb (Fakir.const jc (Val.bool true)) (Fakir.fn1 i f) (Fakir.fn1 i2 f2))
          .nil))) pos next
      = Except.ok (Val.tuple [f (stream pos), f (stream (pos + 1))],
          ⟨pos + 2, [(next + i, f (stream (pos + 1))), (i, f (stream pos))], next + i + 1⟩) := by
  have hne : ¬ (next + i = i) := by omega
  have hne2 : ¬ (i = next + i) := by omega
  have e2 : ∀ g st, eval stream (fuel + 2) g st
      = evalStep stream (evalStep stream (eval stream fuel)) g st := fun _ _ => rfl
  have e3 : ∀ g st, eval stream (fuel + 3) g st
      = evalStep stream (evalStep stream (evalStep stream (eval stream fuel))) g st :=
    fun _ _ => rfl
  refine ⟨⟨?_, ?_⟩, ?_⟩
  · rw [generate, e2]
    simp [ifelse, iid, relabel, truthy, idBoundF, evalStep, evalArgsAux, generate1,
      dictLookup, dictInsert, Fakir.ident]
    omega
  · simp [dictLookup, hne]
  · rw [generate, e3]
    simp [ifelse, iid, relabel, truthy, idBoundF, evalStep, evalArgsAux, generate1,
      tupled, dictLookup, dictInsert, Fakir.ident, hne2]
    omega

/-- Witness for C10 at concrete identities and the identity stream. -/
theorem c10_ifelse_evaluates_fresh_clone_witness :
    (generate (fun t => t) (0 + 2)
      (ifelse 3 (Fakir.const 2 (Val.bool true)) (Fakir.fn1 0 Val.nat) (Fakir.fn1 1 Val.nat)) 0 7
      = Except.ok (Val.nat 0, ⟨0 + 1, [(7 + 0, Val.nat 0)], 7 + 0 + 1⟩) ∧
     dictLookup [(7 + 0, Val.nat 0)] 0 = none) ∧
    generate (fun t => t) (0 + 3)
      (tupled 4 (.cons (Fakir.fn1 0 Val.nat)
        (.cons (ifelse 3 (Fakir.const 2 (Val.bool true)) (Fakir.fn1 0 Val.nat)
          (Fakir.fn1 1 Val.nat)) .nil))) 0 7
      = Except.ok (Val.tuple [Val.nat 0, Val.nat 1],
          ⟨0 + 2, [(7 + 0, Val.nat 1), (0, Val.nat 0)], 7 + 0 + 1⟩) :=
  c10_ifelse_evaluates_fresh_clone 0 1 2 3 4 Val.nat Val.nat (fun t => t) 0 0 7 (by decide)

theorem mapKeys_id (E : List (Nat × Val)) : mapKeys (fun x => x) E = E := by
  simp [mapKeys]

/-- C3 (amended to bind-free generators; for generators containing `bind`
the original claim is refuted, since `deepcopy` keeps continuation
functions shared): for every bind-free generator `g`, `g.iid()` (a `deepcopy` whose
fresh identities start past every live identity, `idBoundF g ≤ base`) has
an identity distinct from `g`'s, and one `generate()` call on
`tupled(g, g.iid())` evaluates the original and the clone separately: the
outcome agrees draw-for-draw with two successive cache-free evaluations of
`g` (`freshRuns g 2`) — two separate random-source consumptions under two
disjoint sets of cache entries, never one collapsed cached value. -/
theorem c3_iid_fresh_identity_draws_independently (g : Fakir) (base j : Nat)
    (stream : Nat → Nat) (fuel pos next : Nat)
    (hbf : bindFree g = true) (hb : idBoundF g ≤ base) :
    (iid base g).ident ≠ g.ident ∧
    (match generate stream (fuel + 1) (tupled j (.cons g (.cons (iid base g) .nil))) pos next,
          freshRuns stream fuel g 2 pos with
     | Except.error e1, Except.error e2 => e1 = e2
     | Except.ok (v, st'), Except.ok (vs, pos2) => v = Val.tuple vs ∧ st'.pos = pos2
     | _, _ => False) := by
  constructor
  · rw [iid, relabel_ident]
    have hlt := idMem_lt_idBoundF g g.ident (idMem_self g)
    omega
  · have rel1 := eval_relabel_rel stream (fun x => x) (fun a b h => h) fuel g pos [] [] 0 next
      hbf (fun i _ => rfl)
    rw [relabel_id] at rel1
    have hfr2 : freshRuns stream fuel g 2 pos =
        (match eval stream fuel g ⟨pos, [], 0⟩ with
         | Except.error e => Except.error e
         | Except.ok (v, st1) =>
           match freshRuns stream fuel g 1 st1.pos with
           | Except.error e => Except.error e
           | Except.ok (vs, p2) => Except.ok (v :: vs, p2)) := rfl
    rw [generate, eval_succ, hfr2]
    cases ha : eval stream fuel g ⟨pos, [], 0⟩ with
    | error ea =>
      cases hbb : eval stream fuel g ⟨pos, [], next⟩ with
      | error eb =>
        rw [ha, hbb] at rel1
        simp only [tupled, evalStep, evalArgsAux, hbb]
        exact (rel1 : ea = eb).symm
      | ok res =>
        rw [ha, hbb] at rel1
        obtain ⟨v1, t1⟩ := res
        exact rel1.elim
    | ok resA =>
      obtain ⟨v1, t1⟩ := resA
      cases hbb : eval stream fuel g ⟨pos, [], next⟩ with
      | error eb =>
        rw [ha, hbb] at rel1
        exact rel1.elim
      | ok resB =>
        obtain ⟨v1b, t1b⟩ := resB
        rw [ha, hbb] at rel1
        obtain ⟨p1, c1, m1⟩ := t1
        obtain ⟨p1b, c1b, m1b⟩ := t1b
        obtain ⟨hv1, hp1, hm1, hm1b, E1, hc1, hc1b, hE1⟩ := rel1
        simp only at hv1 hp1 hm1 hm1b hc1 hc1b
        subst hv1
        subst hp1
        subst hm1
        subst hm1b
        subst hc1
        subst hc1b
        simp only [mapKeys_id, List.append_nil] at ha hbb
        have hinj : ∀ a b : Nat, base + a = base + b → a = b := fun a b h => by omega
        have hkeys : ∀ p ∈ E1, p.1 < idBoundF g :=
          fun p hp => idMem_lt_idBoundF g p.1 (hE1 p hp)
        have hagree2 : ∀ i, idMem g i = true →
            dictLookup E1 ((fun x => base + x) i) = dictLookup [] i := by
          intro i hi
          rw [dictLookup_none_of_keys_lt E1 (idBoundF g) (base + i) hkeys (by omega)]
          rfl
        have rel2 := eval_relabel_rel stream (fun x => base + x) hinj fuel g p1b [] E1 0 m1b
          hbf hagree2
        have hfr1 : freshRuns stream fuel g 1 p1b =
            (match eval stream fuel g ⟨p1b, [], 0⟩ with
             | Except.error e => Except.error e
             | Except.ok (v, st1) => Except.ok ([v], st1.pos)) := rfl
        cases hc : eval stream fuel g ⟨p1b, [], 0⟩ with
        | error ec =>
          cases hd : eval stream fuel (relabel (fun x => base + x) g) ⟨p1b, E1, m1b⟩ with
          | error ed =>
            rw [hc, hd] at rel2
            simp only [tupled, iid, evalStep, evalArgsAux, hbb, hd, hfr1, hc]
            exact (rel2 : ec = ed).symm
          | ok resD =>
            rw [hc, hd] at rel2
            obtain ⟨v2b, t2b⟩ := resD
            exact rel2.elim
        | ok resC =>
          obtain ⟨v2, t2⟩ := resC
          cases hd : eval stream fuel (relabel (fun x => base + x) g) ⟨p1b, E1, m1b⟩ with
          | error ed =>
            rw [hc, hd] at rel2
            exact rel2.elim
          | ok resD =>
            obtain ⟨v2b, t2b⟩ := resD
            rw [hc, hd] at rel2
            obtain ⟨hv2, hp2, hm2, hm2b, E2, hc2, hc2b, hE2⟩ := rel2
            simp only [tupled, iid, evalStep, evalArgsAux, hbb, hd, hfr1, hc]
            exact ⟨by rw [hv2], hp2⟩

/-- Witness for C3 at the primitive generator with identity 0: the pair is
the first two stream draws, taken at distinct positions. -/
theorem c3_iid_fresh_identity_witness :
    (iid 1 (Fakir.fn1 0 Val.nat)).ident ≠ (Fakir.fn1 0 Val.nat).ident ∧
    (match generate (fun t => t) (1 + 1)
        (tupled 5 (.cons (Fakir.fn1 0 Val.nat) (.cons (iid 1 (Fakir.fn1 0 Val.nat)) .nil))) 0 9,
          freshRuns (fun t => t) 1 (Fakir.fn1 0 Val.nat) 2 0 with
     | Except.error e1, Except.error e2 => e1 = e2
     | Except.ok (v, st'), Except.ok (vs, pos2) => v = Val.tuple vs ∧ st'.pos = pos2
     | _, _ => False) :=
  c3_iid_fresh_identity_draws_independently (Fakir.fn1 0 Val.nat) 1 5 (fun t => t) 1 0 9
    rfl (Nat.le_refl 1)

/-- Evaluating a spine of identity-fresh clones of a bind-free generator
`g` (one clone per shift, shifts pairwise separated by at least `g`'s
identity bound and all clearing the initial cache keys) is equivalent,
element for element, to the same number of successive cache-free
evaluations of `g`. -/
theorem clones_rel (stream : Nat → Nat) (fuel : Nat) (g : Fakir) (hbf : bindFree g = true) :
    ∀ (shifts : List Nat) (pos : Nat) (C : List (Nat × Val)) (next : Nat),
      List.Pairwise (fun s1 s2 => s1 + idBoundF g ≤ s2) shifts →
      (∀ s ∈ shifts, ∀ p ∈ C, p.1 < s) →
      (match evalArgsAux (eval stream fuel)
          (toFakirList (shifts.map (fun s => iid s g))) ⟨pos, C, next⟩,
        freshRuns stream fuel g shifts.length pos with
       | Except.error e1, Except.error e2 => e1 = e2
       | Except.ok (vs1, st1), Except.ok (vs2, pos2) =>
           vs1 = vs2 ∧ st1.pos = pos2 ∧ st1.next = next
       | _, _ => False) := by
  intro shifts
  induction shifts with
  | nil =>
    intro pos C next _ _
    exact ⟨rfl, rfl, rfl⟩
  | cons s rest ih =>
    intro pos C next hpw hok
    have hpwHead : ∀ s' ∈ rest, s + idBoundF g ≤ s' :=
      fun s' hs' => (List.pairwise_cons.mp hpw).1 s' hs'
    have hpwRest : List.Pairwise (fun s1 s2 => s1 + idBoundF g ≤ s2) rest :=
      (List.pairwise_cons.mp hpw).2
    have hinj : ∀ a b : Nat, s + a = s + b → a = b := fun a b h => by omega
    have hagree : ∀ i, idMem g i = true →
        dictLookup C ((fun x => s + x) i) = dictLookup [] i := by
      intro i hi
      have hkC : ∀ p ∈ C, p.1 < s := hok s (by simp)
      rw [dictLookup_none_of_keys_lt C s (s + i) hkC (by omega)]
      rfl
    have rel1 := eval_relabel_rel stream (fun x => s + x) hinj fuel g pos [] C 0 next
      hbf hagree
    have hfr : freshRuns stream fuel g (s :: rest).length pos =
        (match eval stream fuel g ⟨pos, [], 0⟩ with
         | Except.error e => Except.error e
         | Except.ok (v, st1) =>
           match freshRuns stream fuel g rest.length st1.pos with
           | Except.error e => Except.error e
           | Except.ok (vs, p2) => Except.ok (v :: vs, p2)) := rfl
    rw [hfr]
    show (match
        (match eval stream fuel (relabel (fun x => s + x) g) ⟨pos, C, next⟩ with
         | Except.error e => Except.error e
         | Except.ok (v, st1) =>
           match evalArgsAux (eval stream fuel)
               (toFakirList (rest.map (fun s' => iid s' g))) st1 with
           | Except.error e => Except.error e
           | Except.ok (vs, st2) => Except.ok (v :: vs, st2)),
        (match eval stream fuel g ⟨pos, [], 0⟩ with
         | Except.error e => Except.error e
         | Except.ok (v, st1) =>
           match freshRuns stream fuel g rest.length st1.pos with
           | Except.error e => Except.error e
           | Except.ok (vs, p2) => Except.ok (v :: vs, p2)) with
       | Except.error e1, Except.error e2 => e1 = e2
       | Except.ok (vs1, st1), Except.ok (vs2, pos2) =>
           vs1 = vs2 ∧ st1.pos = pos2 ∧ st1.next = next
       | _, _ => False)
    cases ha : eval stream fuel g ⟨pos, [], 0⟩ with
    | error ea =>
      cases hb : eval stream fuel (relabel (fun x => s + x) g) ⟨pos, C, next⟩ with
      | error eb =>
        rw [ha, hb] at rel1
        exact (rel1 : ea = eb).symm
      | ok res =>
        rw [ha, hb] at rel1
        obtain ⟨v1, t1⟩ := res
        exact rel1.elim
    | ok resA =>
      obtain ⟨v1, t1⟩ := resA
      cases hb : eval stream fuel (relabel (fun x => s + x) g) ⟨pos, C, next⟩ with
      | error eb =>
        rw [ha, hb] at rel1
        exact rel1.elim
      | ok resB =>
        obtain ⟨v1b, t1b⟩ := resB
        rw [ha, hb] at rel1
        obtain ⟨p1, c1, m1⟩ := t1
        obtain ⟨p1b, c1b, m1b⟩ := t1b
        obtain ⟨hv1, hp1, hm1, hm1b, E1, hc1, hc1b, hE1⟩ := rel1
        simp only at hv1 hp1 hm1 hm1b hc1 hc1b
        subst hv1
        subst hp1
        subst hm1
        subst hm1b
        subst hc1
        subst hc1b
        show (match
            (match evalArgsAux (eval stream fuel)
                (toFakirList (rest.map (fun s' => iid s' g)))
                ⟨p1b, mapKeys (fun x => s + x) E1 ++ C, m1b⟩ with
             | Except.error e => Except.error e
             | Except.ok (vs, st2) => Except.ok (v1 :: vs, st2)),
            (match freshRuns stream fuel g rest.length p1b with
             | Except.error e => Except.error e
             | Except.ok (vs, p2) => Except.ok (v1 :: vs, p2)) with
           | Except.error e1, Except.error e2 => e1 = e2
           | Except.ok (vs1, st1), Except.ok (vs2, pos2) =>
               vs1 = vs2 ∧ st1.pos = pos2 ∧ st1.next = m1b
           | _, _ => False)
        have hokR : ∀ s' ∈ rest, ∀ p ∈ mapKeys (fun x => s + x) E1 ++ C, p.1 < s' := by
          intro s' hs' p hp
          rcases List.mem_append.mp hp with hp | hp
          · obtain ⟨q, hq, hqe⟩ := List.mem_map.mp hp
            have hqlt : q.1 < idBoundF g := idMem_lt_idBoundF g q.1 (hE1 q hq)
            have hgap := hpwHead s' hs'
            rw [← hqe]
            simp only
            omega
          · have := hok s' (by simp [hs']) p hp
            have hgap := hpwHead s' hs'
            have hbnd := one_le_idBoundF g
            omega
        have h2 := ih p1b (mapKeys (fun x => s + x) E1 ++ C) m1b hpwRest hokR
        cases hc : evalArgsAux (eval stream fuel)
            (toFakirList (rest.map (fun s' => iid s' g)))
            ⟨p1b, mapKeys (fun x => s + x) E1 ++ C, m1b⟩ with
        | error ec =>
          cases hd : freshRuns stream fuel g rest.length p1b with
          | error ed =>
            rw [hc, hd] at h2
            exact h2
          | ok resD =>
            rw [hc, hd] at h2
            obtain ⟨vsD, pD⟩ := resD
            exact h2.elim
        | ok resC =>
          obtain ⟨vsC, tC⟩ := resC
          cases hd : freshRuns stream fuel g rest.length p1b with
          | error ed =>
            rw [hc, hd] at h2
            exact h2.elim
          | ok resD =>
            obtain ⟨vsD, pD⟩ := resD
            rw [hc, hd] at h2
            obtain ⟨hvs, hpC, hnC⟩ := h2
            exact ⟨by rw [hvs], hpC, hnC⟩

/-- C4 (amended to bind-free generators; for generators containing `bind`
the original claim is refuted, since the clones share continuation
functions): `repeat(g, n)` is `listed` over `n` identity-fresh `iid()` clones
of `g` (clone `j` shifted by `base + j * width`, `width` at least `g`'s
identity bound), and one `generate()` call on it agrees outcome-for-outcome
with `n` successive cache-free evaluations of `g` (`freshRuns`): on success
the result is a list of exactly `n` values, each produced by its own
evaluation consuming its own stretch of the random source — never one
cached value replicated `n` times. -/
theorem c4_repeat_generates_iid_elements (g : Fakir) (lid n base width : Nat) (stream : Nat → Nat)
    (fuel pos next : Nat) (hbf : bindFree g = true) (hw : idBoundF g ≤ width) :
    (match generate stream (fuel + 1) (repeatGen lid g n base width) pos next,
          freshRuns stream fuel g n pos with
     | Except.error e1, Except.error e2 => e1 = e2
     | Except.ok (v, st'), Except.ok (vs, pos2) =>
         v = Val.list vs ∧ vs.length = n ∧ st'.pos = pos2
     | _, _ => False) := by
  have hpw : List.Pairwise (fun s1 s2 => s1 + idBoundF g ≤ s2)
      ((List.range n).map (fun j => base + j * width)) := by
    refine List.Pairwise.map _ ?_ (List.pairwise_lt_range n)
    intro a b hab
    have h1 : (a + 1) * width ≤ b * width := Nat.mul_le_mul_right width hab
    rw [Nat.succ_mul] at h1
    omega
  have hrel := clones_rel stream fuel g hbf ((List.range n).map (fun j => base + j * width))
    pos [] next hpw (by intro s hs p hp; simp at hp)
  have hargs : ((List.range n).map (fun j => base + j * width)).map (fun s => iid s g)
      = (List.range n).map (fun j => iid (base + j * width) g) := by
    rw [List.map_map]
    rfl
  rw [hargs, List.length_map, List.length_range] at hrel
  rw [generate, eval_succ]
  show (match
      (match evalArgsAux (eval stream fuel)
          (toFakirList ((List.range n).map (fun j => iid (base + j * width) g)))
          ⟨pos, [], next⟩ with
       | Except.error e => Except.error e
       | Except.ok (vs, st1) => Except.ok (Val.list vs, st1)),
      freshRuns stream fuel g n pos with
     | Except.error e1, Except.error e2 => e1 = e2
     | Except.ok (v, st'), Except.ok (vs, pos2) =>
         v = Val.list vs ∧ vs.length = n ∧ st'.pos = pos2
     | _, _ => False)
  cases he : evalArgsAux (eval stream fuel)
      (toFakirList ((List.range n).map (fun j => iid (base + j * width) g)))
      ⟨pos, [], next⟩ with
  | error e1 =>
    cases hf : freshRuns stream fuel g n pos with
    | error e2 =>
      rw [he, hf] at hrel
      exact hrel
    | ok r2 =>
      rw [he, hf] at hrel
      obtain ⟨vs2, p2⟩ := r2
      exact hrel.elim
  | ok r1 =>
    obtain ⟨vs1, st1⟩ := r1
    cases hf : freshRuns stream fuel g n pos with
    | error e2 =>
      rw [he, hf] at hrel
      exact hrel.elim
    | ok r2 =>
      obtain ⟨vs2, p2⟩ := r2
      rw [he, hf] at hrel
      obtain ⟨hvs, hp, hn⟩ := hrel
      exact ⟨by rw [hvs], freshRuns_length stream fuel g n pos vs2 p2 hf, hp⟩

/-- Witness for C4: three clones of the primitive with identity 0 draw the
first three stream values. -/
theorem c4_repeat_generates_iid_elements_witness :
    (match generate (fun t => t) (1 + 1) (repeatGen 9 (Fakir.fn1 0 Val.nat) 3 1 1) 0 50,
          freshRuns (fun t => t) 1 (Fakir.fn1 0 Val.nat) 3 0 with
     | Except.error e1, Except.error e2 => e1 = e2
     | Except.ok (v, st'), Except.ok (vs, pos2) =>
         v = Val.list vs ∧ vs.length = 3 ∧ st'.pos = pos2
     | _, _ => False) :=
  c4_repeat_generates_iid_elements (Fakir.fn1 0 Val.nat) 9 3 1 1 (fun t => t) 1 0 50
    rfl (Nat.le_refl 1)

/-- C5 (amended to bind-free condition and branches, evaluated as the root
of a `generate()` call; for a branch containing `bind` the original claim
is refuted, since the branch clone shares its continuation function):
`ifelse(cond, a, b)` evaluates the condition generator first (from
the call's initial state) and then exactly one branch: when the condition
is truthy the result is entirely independent of the untaken branch `b`
(replacing `b` by any `b'` leaves the outcome, including the random-source
consumption, unchanged — `b` is never evaluated and consumes no
random-source state), and the conditional's outcome equals the outcome of
evaluating the taken branch itself (cache-free) at the random-source state
the condition left behind: same error, or same value with the same final
stream position; symmetrically when the condition is falsy. -/
theorem c5_ifelse_condition_first_one_branch (c a b : Fakir) (j : Nat) (stream : Nat → Nat)
    (fuel pos n0 : Nat) (v : Val) (st1 : St)
    (hbc : bindFree c = true) (hba : bindFree a = true) (hbb : bindFree b = true)
    (hn0 : idBoundF c ≤ n0)
    (hcond : eval stream fuel c ⟨pos, [], n0⟩ = Except.ok (v, st1)) :
    (truthy v = true →
      (∀ b', eval stream (fuel + 1) (ifelse j c a b) ⟨pos, [], n0⟩
        = eval stream (fuel + 1) (ifelse j c a b') ⟨pos, [], n0⟩) ∧
      (match eval stream fuel a ⟨st1.pos, [], 0⟩ with
       | Except.error e =>
         eval stream (fuel + 1) (ifelse j c a b) ⟨pos, [], n0⟩ = Except.error e
       | Except.ok (w, st2) =>
         ∃ C2, eval stream (fuel + 1) (ifelse j c a b) ⟨pos, [], n0⟩
           = Except.ok (w, ⟨st2.pos, C2, n0 + idBoundF a⟩))) ∧
    (truthy v = false →
      (∀ a', eval stream (fuel + 1) (ifelse j c a' b) ⟨pos, [], n0⟩
        = eval stream (fuel + 1) (ifelse j c a b) ⟨pos, [], n0⟩) ∧
      (match eval stream fuel b ⟨st1.pos, [], 0⟩ with
       | Except.error e =>
         eval stream (fuel + 1) (ifelse j c a b) ⟨pos, [], n0⟩ = Except.error e
       | Except.ok (w, st2) =>
         ∃ C2, eval stream (fuel + 1) (ifelse j c a b) ⟨pos, [], n0⟩
           = Except.ok (w, ⟨st2.pos, C2, n0 + idBoundF b⟩))) := by
  obtain ⟨hnext, E, hcache, hkeys⟩ := eval_ok_shape stream fuel c pos n0 [] v st1 hbc hcond
  rw [List.append_nil] at hcache
  have hstep : ∀ x y : Fakir, eval stream (fuel + 1) (ifelse j c x y) ⟨pos, [], n0⟩
      = (let p := (if truthy v then (iid st1.next x, st1.next + idBoundF x)
                   else (iid st1.next y, st1.next + idBoundF y))
         eval stream fuel p.1 { st1 with next := p.2 }) := by
    intro x y
    rw [eval_succ]
    show (match eval stream fuel c ⟨pos, [], n0⟩ with
          | Except.error e => Except.error e
          | Except.ok (v', s1) =>
            let p := (fun vv nn => if truthy vv then (iid nn x, nn + idBoundF x)
                      else (iid nn y, nn + idBoundF y)) v' s1.next
            eval stream fuel p.1 { s1 with next := p.2 }) = _
    rw [hcond]
  have hEkeys : ∀ p ∈ st1.cache, p.1 < idBoundF c := by
    rw [hcache]
    exact fun p hp => idMem_lt_idBoundF c p.1 (hkeys p hp)
  constructor
  · intro htv
    constructor
    · intro b'
      rw [hstep a b, hstep a b']
      simp only [htv, if_true]
    · rw [hstep a b]
      simp only [htv, if_true, hnext]
      have hinj : ∀ x y : Nat, n0 + x = n0 + y → x = y := fun x y h => by omega
      have hagree : ∀ i, idMem a i = true →
          dictLookup st1.cache ((fun x => n0 + x) i) = dictLookup [] i := by
        intro i hi
        rw [dictLookup_none_of_keys_lt st1.cache (idBoundF c) (n0 + i) hEkeys (by omega)]
        rfl
      have rel := eval_relabel_rel stream (fun x => n0 + x) hinj fuel a st1.pos []
        st1.cache 0 (n0 + idBoundF a) hba hagree
      cases ha : eval stream fuel a ⟨st1.pos, [], 0⟩ with
      | error ea =>
        cases hb2 : eval stream fuel (relabel (fun x => n0 + x) a)
            ⟨st1.pos, st1.cache, n0 + idBoundF a⟩ with
        | error eb =>
          rw [ha, hb2] at rel
          show eval stream fuel (iid n0 a) { st1 with next := n0 + idBoundF a }
            = Except.error ea
          rw [show (iid n0 a) = relabel (fun x => n0 + x) a from rfl]
          rw [show ({ st1 with next := n0 + idBoundF a } : St)
            = ⟨st1.pos, st1.cache, n0 + idBoundF a⟩ from rfl]
          rw [hb2, (rel : ea = eb)]
        | ok res =>
          rw [ha, hb2] at rel
          obtain ⟨w2, t2⟩ := res
          exact rel.elim
      | ok resA =>
        obtain ⟨w, st2⟩ := resA
        cases hb2 : eval stream fuel (relabel (fun x => n0 + x) a)
            ⟨st1.pos, st1.cache, n0 + idBoundF a⟩ with
        | error eb =>
          rw [ha, hb2] at rel
          exact rel.elim
        | ok resB =>
          obtain ⟨w2, t2⟩ := resB
          rw [ha, hb2] at rel
          obtain ⟨hw, hp2, hm2, hm2b, E2, hc2, hc2b, hE2⟩ := rel
          refine ⟨t2.cache, ?_⟩
          show eval stream fuel (iid n0 a) { st1 with next := n0 + idBoundF a }
            = Except.ok (w, ⟨st2.pos, t2.cache, n0 + idBoundF a⟩)
          rw [show (iid n0 a) = relabel (fun x => n0 + x) a from rfl]
          rw [show ({ st1 with next := n0 + idBoundF a } : St)
            = ⟨st1.pos, st1.cache, n0 + idBoundF a⟩ from rfl]
          rw [hb2, ← hw, ← hp2, ← hm2b]
  · intro htv
    constructor
    · intro a'
      rw [hstep a b, hstep a' b]
      simp only [htv, Bool.false_eq_true, if_false]
    · rw [hstep a b]
      simp only [htv, Bool.false_eq_true, if_false, hnext]
      have hinj : ∀ x y : Nat, n0 + x = n0 + y → x = y := fun x y h => by omega
      have hagree : ∀ i, idMem b i = true →
          dictLookup st1.cache ((fun x => n0 + x) i) = dictLookup [] i := by
        intro i hi
        rw [dictLookup_none_of_keys_lt st1.cache (idBoundF c) (n0 + i) hEkeys (by omega)]
        rfl
      have rel := eval_relabel_rel stream (fun x => n0 + x) hinj fuel b st1.pos []
        st1.cache 0 (n0 + idBoundF b) hbb hagree
      cases ha : eval stream fuel b ⟨st1.pos, [], 0⟩ with
      | error ea =>
        cases hb2 : eval stream fuel (relabel (fun x => n0 + x) b)
            ⟨st1.pos, st1.cache, n0 + idBoundF b⟩ with
        | error eb =>
          rw [ha, hb2] at rel
          show eval stream fuel (iid n0 b) { st1 with next := n0 + idBoundF b }
            = Except.error ea
          rw [show (iid n0 b) = relabel (fun x => n0 + x) b from rfl]
          rw [show ({ st1 with next := n0 + idBoundF b } : St)
            = ⟨st1.pos, st1.cache, n0 + idBoundF b⟩ from rfl]
          rw [hb2, (rel : ea = eb)]
        | ok res =>
          rw [ha, hb2] at rel
          obtain ⟨w2, t2⟩ := res
          exact rel.elim
      | ok resA =>
        obtain ⟨w, st2⟩ := resA
        cases hb2 : eval stream fuel (relabel (fun x => n0 + x) b)
            ⟨st1.pos, st1.cache, n0 + idBoundF b⟩ with
        | error eb =>
          rw [ha, hb2] at rel
          exact rel.elim
        | ok resB =>
          obtain ⟨w2, t2⟩ := resB
          rw [ha, hb2] at rel
          obtain ⟨hw, hp2, hm2, hm2b, E2, hc2, hc2b, hE2⟩ := rel
          refine ⟨t2.cache, ?_⟩
          show eval stream fuel (iid n0 b) { st1 with next := n0 + idBoundF b }
            = Except.ok (w, ⟨st2.pos, t2.cache, n0 + idBoundF b⟩)
          rw [show (iid n0 b) = relabel (fun x => n0 + x) b from rfl]
          rw [show ({ st1 with next := n0 + idBoundF b } : St)
            = ⟨st1.pos, st1.cache, n0 + idBoundF b⟩ from rfl]
          rw [hb2, ← hw, ← hp2, ← hm2b]

/-- Witness for C5 with a constant-true condition, a primitive taken
branch and a constant untaken branch. -/
theorem c5_ifelse_condition_first_witness :
    (truthy (Val.bool true) = true →
      (∀ b', eval (fun t => t) (1 + 1)
          (ifelse 4 (Fakir.const 0 (Val.bool true)) (Fakir.fn1 0 Val.nat)
            (Fakir.const 3 (Val.nat 7))) ⟨0, [], 1⟩
        = eval (fun t => t) (1 + 1)
            (ifelse 4 (Fakir.const 0 (Val.bool true)) (Fakir.fn1 0 Val.nat) b') ⟨0, [], 1⟩) ∧
      (match eval (fun t => t) 1 (Fakir.fn1 0 Val.nat)
          ⟨(⟨0, [], 1⟩ : St).pos, [], 0⟩ with
       | Except.error e =>
         eval (fun t => t) (1 + 1)
            (ifelse 4 (Fakir.const 0 (Val.bool true)) (Fakir.fn1 0 Val.nat)
              (Fakir.const 3 (Val.nat 7))) ⟨0, [], 1⟩ = Except.error e
       | Except.ok (w, st2) =>
         ∃ C2, eval (fun t => t) (1 + 1)
            (ifelse 4 (Fakir.const 0 (Val.bool true)) (Fakir.fn1 0 Val.nat)
              (Fakir.const 3 (Val.nat 7))) ⟨0, [], 1⟩
           = Except.ok (w, ⟨st2.pos, C2, 1 + idBoundF (Fakir.fn1 0 Val.nat)⟩))) ∧
    (truthy (Val.bool true) = false →
      (∀ a', eval (fun t => t) (1 + 1)
          (ifelse 4 (Fakir.const 0 (Val.bool true)) a' (Fakir.const 3 (Val.nat 7))) ⟨0, [], 1⟩
        = eval (fun t => t) (1 + 1)
            (ifelse 4 (Fakir.const 0 (Val.bool true)) (Fakir.fn1 0 Val.nat)
              (Fakir.const 3 (Val.nat 7))) ⟨0, [], 1⟩) ∧
      (match eval (fun t => t) 1 (Fakir.const 3 (Val.nat 7))
          ⟨(⟨0, [], 1⟩ : St).pos, [], 0⟩ with
       | Except.error e =>
         eval (fun t => t) (1 + 1)
            (ifelse 4 (Fakir.const 0 (Val.bool true)) (Fakir.fn1 0 Val.nat)
              (Fakir.const 3 (Val.nat 7))) ⟨0, [], 1⟩ = Except.error e
       | Except.ok (w, st2) =>
         ∃ C2, eval (fun t => t) (1 + 1)
            (ifelse 4 (Fakir.const 0 (Val.bool true)) (Fakir.fn1 0 Val.nat)
              (Fakir.const 3 (Val.nat 7))) ⟨0, [], 1⟩
           = Except.ok (w, ⟨st2.pos, C2, 1 + idBoundF (Fakir.const 3 (Val.nat 7))⟩))) :=
  c5_ifelse_condition_first_one_branch (Fakir.const 0 (Val.bool true)) (Fakir.fn1 0 Val.nat)
    (Fakir.const 3 (Val.nat 7)) 4 (fun t => t) 1 0 1 (Val.bool true) ⟨0, [], 1⟩
    rfl rfl rfl (Nat.le_refl 1) rfl

/-- C3 (counterexample): the claim fails for generators containing `bind`,
because `deepcopy` keeps the continuation function atomic, so the clone's
continuation returns the very same sub-generator instance.  For
`g = rng.bind(lambda _: k)` with `rng = Fn1Fakir(0)` and the shared
`k = Fn1Fakir(1)`, one `generate()` call on `tupled(g, g.iid())` returns a
tuple whose two components are both `k`'s single cached draw (`Val.nat 1`,
stored once under `k`'s identity 1) — the two occurrences collapse into one
cached entry, instead of the two distinct draws (`Val.nat 1`, `Val.nat 3`)
that two separate cache-free evaluations (`freshRuns g 2`) produce. -/
theorem c3_iid_bind_shared_continuation_counterexample :
    generate (fun t => t) 6
      (tupled 5 (.cons
        (Fakir.bind 2 (Fakir.fn1 0 Val.nat) (fun _ n => (Fakir.fn1 1 Val.nat, n)))
        (.cons
          (iid 3 (Fakir.bind 2 (Fakir.fn1 0 Val.nat) (fun _ n => (Fakir.fn1 1 Val.nat, n))))
          .nil))) 0 100
      = Except.ok (Val.tuple [Val.nat 1, Val.nat 1],
          ⟨3, [(3, Val.nat 2), (1, Val.nat 1), (0, Val.nat 0)], 100⟩) ∧
    freshRuns (fun t => t) 6
      (Fakir.bind 2 (Fakir.fn1 0 Val.nat) (fun _ n => (Fakir.fn1 1 Val.nat, n))) 2 0
      = Except.ok ([Val.nat 1, Val.nat 3], 4) ∧
    Val.nat 1 ≠ Val.nat 3 ∧
    dictLookup [(3, Val.nat 2), (1, Val.nat 1), (0, Val.nat 0)] 1 = some (Val.nat 1) := by
  refine ⟨rfl, rfl, by simp, rfl⟩

/-- C4 (counterexample): the claim fails for generators containing `bind`.
For `g = fixed(True).bind(lambda _: k)` with the shared `k = Fn1Fakir(1)`,
the two `iid()` clones built by `repeat(g, 2)` share the atomic
continuation, so one `generate()` call returns `k`'s single cached draw
replicated (`[Val.nat 0, Val.nat 0]`, one draw, one cache entry) — exactly
the behaviour the claim excludes — instead of the two independent draws
(`[Val.nat 0, Val.nat 1]`) of two cache-free evaluations.  The identity
bound of `g` is 3, so the clone blocks (`base = 3`, `width = 3`) satisfy
every freshness side condition; only bind-freeness fails. -/
theorem c4_repeat_bind_shared_continuation_counterexample :
    generate (fun t => t) 6
      (repeatGen 9
        (Fakir.bind 2 (Fakir.const 0 (Val.bool true)) (fun _ n => (Fakir.fn1 1 Val.nat, n)))
        2 3 3) 0 100
      = Except.ok (Val.list [Val.nat 0, Val.nat 0], ⟨1, [(1, Val.nat 0)], 100⟩) ∧
    freshRuns (fun t => t) 6
      (Fakir.bind 2 (Fakir.const 0 (Val.bool true)) (fun _ n => (Fakir.fn1 1 Val.nat, n))) 2 0
      = Except.ok ([Val.nat 0, Val.nat 1], 2) ∧
    Val.nat 0 ≠ Val.nat 1 ∧
    idBoundF
      (Fakir.bind 2 (Fakir.const 0 (Val.bool true)) (fun _ n => (Fakir.fn1 1 Val.nat, n))) ≤ 3 := by
  refine ⟨rfl, rfl, by simp, by decide⟩

/-- C5 (counterexample): the claim fails when the taken branch contains
`bind`.  With the bind-free condition `k.map(lambda _: True)` and the taken
branch `fixed(5).bind(lambda _: k)` — both holding the same
`k = Fn1Fakir(0)` — evaluating the condition caches `k`'s draw
(`Val.nat 0` at stream position 0), and the branch clone built by `ifelse`
shares the atomic continuation, so the conditional returns that cached
`Val.nat 0` and consumes no further random-source state (final position 1);
but the taken branch itself, evaluated at the random-source state the
condition left (position 1), produces `Val.nat 1` and consumes a draw
(final position 2).  The conditional's result is not the value produced by
the taken branch. -/
theorem c5_ifelse_bind_branch_counterexample :
    eval (fun t => t) 6
      (ifelse 6 (Fakir.lift 1 (fun _ => Val.bool true) (.cons (Fakir.fn1 0 Val.nat) .nil))
        (Fakir.bind 2 (Fakir.const 3 (Val.nat 5)) (fun _ n => (Fakir.fn1 0 Val.nat, n)))
        (Fakir.const 4 (Val.nat 7))) ⟨0, [], 10⟩
      = Except.ok (Val.nat 0, ⟨1, [(0, Val.nat 0)], 14⟩) ∧
    eval (fun t => t) 6
      (Fakir.bind 2 (Fakir.const 3 (Val.nat 5)) (fun _ n => (Fakir.fn1 0 Val.nat, n)))
      ⟨1, [], 0⟩
      = Except.ok (Val.nat 1, ⟨2, [(0, Val.nat 1)], 0⟩) ∧
    Val.nat 0 ≠ Val.nat 1 := by
  refine ⟨rfl, rfl, by simp⟩
